import Mathlib

/-!
Verification of the Ironsight-Dashboard acoustic impact-localization core.

Shallow embedding of the Python backend
(`archery_dashboard/backend/{scoring,config,state,udp_listener,app}.py`)
into Lean 4. Pure numeric code over floats is modelled over `ℚ` where the
source only performs field arithmetic and comparisons, and over `ℝ` where
the source uses `math.log` / `math.sqrt` / `math.hypot`. Fallible code
returns `Option`.
-/

namespace Ironsight

/-! ## Scoring (`backend/scoring.py`, `backend/config.py`)

`RINGS_CM` is a dict with an optional `"X"` key and integer ring keys
10..1; `score_from_r` first tests the X ring and then scans 10 → 1.
We model the table as an optional X radius plus a total function on ring
numbers (the source indexes `RINGS_CM[s]` for `s` in 10..1). -/

structure RingTable where
  xRing : Option ℚ
  ring : ℕ → ℚ

/-- Default ring radii from `config.RINGS_CM` (cm). -/
def RINGS_CM : RingTable :=
  { xRing := some 2
    ring := fun s =>
      match s with
      | 10 => 4
      | 9 => 8
      | 8 => 12
      | 7 => 16
      | 6 => 20
      | 5 => 24
      | 4 => 28
      | 3 => 32
      | 2 => 36
      | 1 => 40
      | _ => 0 }

/-- The `for s in range(10, 0, -1)` scan of `score_from_r`: returns the
first ring `s` (counting down from the argument) whose radius is `≥ r`,
else `(0, false)`. -/
def scanRings (t : RingTable) (r : ℚ) : ℕ → ℕ × Bool
  | 0 => (0, false)
  | s + 1 => if r ≤ t.ring (s + 1) then (s + 1, false) else scanRings t r s

/-- Model of `scoring.score_from_r`: X ring first (score 10 with X flag),
then the 10 → 1 scan, else `(0, false)`. -/
def score_from_r (t : RingTable) (r : ℚ) : ℕ × Bool :=
  match t.xRing with
  | some xr => if r ≤ xr then (10, true) else scanRings t r 10
  | none => scanRings t r 10

/-! ## Session state (`backend/state.py`) -/

/-- Model of `state.Shot`. -/
structure Shot where
  ts : ℚ
  x : ℚ
  y : ℚ
  r : ℚ
  score : ℕ
  isX : Bool
  deriving DecidableEq

/-- Model of `state.SessionState` (the fields `add_shot` reads). -/
structure SessionState where
  ends : List (List Shot)
  arrows_per_end : ℕ
  num_ends : ℕ
  deriving DecidableEq

/-- Model of `SessionState.add_shot`: ensure at least one end exists; if
the last end is full, open a new end when below `num_ends`, otherwise
clear the last end; then append the shot to the last end. -/
def add_shot (st : SessionState) (sh : Shot) : SessionState :=
  let ends0 := if st.ends.isEmpty then [([] : List Shot)] else st.ends
  let ends1 :=
    if st.arrows_per_end ≤ (ends0.getLast?.getD []).length then
      if ends0.length < st.num_ends then ends0 ++ [[]]
      else ends0.dropLast ++ [[]]
    else ends0
  ⟨ends1.dropLast ++ [(ends1.getLast?.getD []) ++ [sh]],
   st.arrows_per_end, st.num_ends⟩

/-- Capacity invariant of a session: every end holds at most
`arrows_per_end` shots and there are at most `max 1 num_ends` ends. -/
def SessInv (st : SessionState) : Prop :=
  (∀ e ∈ st.ends, e.length ≤ st.arrows_per_end) ∧
    st.ends.length ≤ max 1 st.num_ends

instance (st : SessionState) : Decidable (SessInv st) := by
  unfold SessInv; infer_instance

/-! ## UDP listener: features, classifier, localizer, fusion
(`backend/udp_listener.py`)

The source works on Python floats and uses `math.log` and `math.sqrt`,
so this part of the embedding lives in `ℝ` (and is `noncomputable`
exactly where the source uses transcendental functions or where real
comparisons appear in control flow). A burst is reduced to its two
per-channel maps `ch_energy` and `ch_peak` (channels `"0".."3"`), the
only data `datagram_received` uses for classification. The channel →
compass map is the production default `CH2COMP = {0: N, 1: W, 2: S,
3: E}` from `backend/app.py`. -/

section RealPipeline

open Classical

/-- Per-channel features of one `hit_bundle` datagram: `ch_energy` and
`ch_peak` as read in `datagram_received` (channels 0..3). -/
structure Burst where
  e : Fin 4 → ℝ
  p : Fin 4 → ℝ

/-- Channel energies in key order `"0".."3"` (`ch_energy.values()`). -/
def chList (b : Burst) : List ℝ := [b.e 0, b.e 1, b.e 2, b.e 3]

/-- Channel peaks in key order `"0".."3"` (`ch_peak.values()`). -/
def peakList (b : Burst) : List ℝ := [b.p 0, b.p 1, b.p 2, b.p 3]

/-- Python `sum(ch_energy.values())`. -/
def sumEnergy (b : Burst) : ℝ := (chList b).sum

/-- Python `max(ch_energy.values())`. -/
def maxEnergy (b : Burst) : ℝ := List.foldl max (b.e 0) [b.e 1, b.e 2, b.e 3]

/-- Python `max(ch_peak.values())`. -/
def maxPeak (b : Burst) : ℝ := List.foldl max (b.p 0) [b.p 1, b.p 2, b.p 3]

/-- Source `dom_ratio = max_energy / sum_energy if sum_energy > 1e-9 else 0`. -/
noncomputable def dom (b : Burst) : ℝ :=
  if 1e-9 < sumEnergy b then maxEnergy b / sumEnergy b else 0

/-- Source `peaks_sorted = sorted(ch_peak.values())`. -/
noncomputable def sortedPeaks (b : Burst) : List ℝ :=
  List.insertionSort (fun a b => a ≤ b) (peakList b)

/-- Source `peak_median = peaks_sorted[len(peaks_sorted) // 2]`. -/
noncomputable def peakMedian (b : Burst) : ℝ :=
  (sortedPeaks b).getD ((sortedPeaks b).length / 2) 0

/-- Source `peak_over = max_peak - peak_median`. -/
noncomputable def peakOver (b : Burst) : ℝ := maxPeak b - peakMedian b

/-- Source entropy of the normalized energy distribution:
`-sum(p * log(p + 1e-12))` over `p = max(v, 0)/sum_energy`, and `0`
when `sum_energy ≤ 1e-9`. -/
noncomputable def entropy (b : Burst) : ℝ :=
  if 1e-9 < sumEnergy b then
    -(((chList b).map
        (fun v => (max v 0 / sumEnergy b) *
          Real.log (max v 0 / sumEnergy b + 1e-12))).sum)
  else 0

/-- Source `es = sorted(ch_energy.values(), reverse=True)`. -/
noncomputable def sortedEnergiesDesc (b : Burst) : List ℝ :=
  List.insertionSort (fun a b => b ≤ a) (chList b)

/-- Source `top2_ratio = (es[0] + es[1]) / sum_energy` when there are at
least two entries and `sum_energy > 1e-9`, else `0`. -/
noncomputable def top2 (b : Burst) : ℝ :=
  if 2 ≤ (sortedEnergiesDesc b).length ∧ 1e-9 < sumEnergy b then
    ((sortedEnergiesDesc b).getD 0 0 + (sortedEnergiesDesc b).getD 1 0) /
      sumEnergy b
  else 0

/-- Compass energies via the default `CH2COMP` (0→N, 1→W, 2→S, 3→E),
as produced by `extract_compass_peaks`. -/
def compN (b : Burst) : ℝ := b.e 0

/-- West compass energy (channel 1). -/
def compW (b : Burst) : ℝ := b.e 1

/-- South compass energy (channel 2). -/
def compS (b : Burst) : ℝ := b.e 2

/-- East compass energy (channel 3). -/
def compE (b : Burst) : ℝ := b.e 3

/-- Source `energy = comp["N"] + comp["E"] + comp["W"] + comp["S"]`. -/
def compassEnergy (b : Burst) : ℝ := compN b + compE b + compW b + compS b

/-- The compass-mapped total equals the channel total (the default
channel map is a bijection onto the four compass points). -/
theorem compassEnergy_eq_sumEnergy (b : Burst) :
    compassEnergy b = sumEnergy b := by
  simp [compassEnergy, sumEnergy, chList, compN, compE, compW, compS]
  ring

/-- Source EMA seeding: `ema_prev = self._energy_ema`, re-seeded to the
current energy when it is exactly `0.0`. -/
noncomputable def emaPrevOf (ema energy : ℝ) : ℝ :=
  if ema = 0 then energy else ema

/-- Source `delta = energy - ema_prev`. -/
noncomputable def deltaOf (b : Burst) (ema : ℝ) : ℝ :=
  compassEnergy b - emaPrevOf ema (compassEnergy b)

/-- The multi-feature rubric score (`score` accumulated in
`datagram_received`), with the instance-default thresholds. -/
noncomputable def rubricScore (b : Burst) (ema : ℝ) : ℤ :=
  let energy := compassEnergy b
  let delta := deltaOf b ema
  (if 500 ≤ energy then 2 else 0) +
  (if 1000 ≤ energy then 3 else 0) +
  (if 5000 ≤ energy then 3 else 0) +
  (if 350 ≤ maxPeak b then 2 else 0) +
  (if 500 ≤ maxPeak b then 3 else 0) +
  (if 700 ≤ maxPeak b then 2 else 0) +
  (if 0.45 ≤ dom b then 2 else 0) +
  (if 0.60 ≤ dom b then 3 else 0) +
  (if 25 ≤ peakOver b then 2 else 0) +
  (if entropy b ≤ 1 then 2 else 0) +
  (if 0.75 ≤ top2 b then 2 else 0) +
  (if 1000 ≤ delta then 2 else 0) +
  (if 10000 ≤ delta then 3 else 0)

/-- Mode-dependent score threshold: 13 in calibration, 10 in shooting. -/
def scoreThresh (isCal : Bool) : ℤ := if isCal then 13 else 10

/-- The full classification chain of `datagram_received` with the
instance-default configuration (`use_dom_gate = True`,
`use_score_classifier = True`): hard minimum gates, impulse/size gates,
weak-signal veto, calibration-strict vetoes, the weighted score stage,
and the final low-energy override. Returns `true` for HIT. -/
noncomputable def classifyHit (b : Burst) (ema : ℝ) (isCal : Bool) : Bool :=
  let energy := compassEnergy b
  let score := rubricScore b ema
  let thresh := scoreThresh isCal
  if energy < 25 then false
  else if maxEnergy b < 12 then false
  else if dom b < 0.35 ∧ energy < 10000 then false
  else if energy < 200 ∧ maxPeak b < 300 ∧ peakOver b < 10 then false
  else if ¬(300 ≤ energy ∨ 300 ≤ maxPeak b ∨ 10 ≤ peakOver b) then false
  else if maxPeak b < 320 ∧ energy < 2000 then false
  else if isCal = true ∧ energy < 5000 then false
  else if isCal = true ∧ ¬(320 ≤ maxPeak b ∨ 300 ≤ energy) then false
  else if scoreThresh isCal ≤ score then
    if energy < 5000 ∧ score < thresh + 5 then false else true
  else false

/-- A burst reaches the weighted-score stage of the classifier: none of
the gates before the rubric fires. -/
def ReachesScoreStage (b : Burst) (isCal : Bool) : Prop :=
  ¬(compassEnergy b < 25) ∧
  ¬(maxEnergy b < 12) ∧
  ¬(dom b < 0.35 ∧ compassEnergy b < 10000) ∧
  ¬(compassEnergy b < 200 ∧ maxPeak b < 300 ∧ peakOver b < 10) ∧
  (300 ≤ compassEnergy b ∨ 300 ≤ maxPeak b ∨ 10 ≤ peakOver b) ∧
  ¬(maxPeak b < 320 ∧ compassEnergy b < 2000) ∧
  ¬(isCal = true ∧ compassEnergy b < 5000) ∧
  ¬(isCal = true ∧ ¬(320 ≤ maxPeak b ∨ 300 ≤ compassEnergy b))

/-! ### Energy localizer (lines 697-733 of `datagram_received`) -/

/-- Source `_blend_to_zero(v, frac, floor)`. -/
noncomputable def blend_to_zero (v frac floor : ℝ) : ℝ :=
  if frac ≤ 0 then 0
  else if floor ≤ frac then max (-1) (min 1 v)
  else max (-1) (min 1 (v * Real.sqrt (frac / floor)))

/-- The energy localizer of `datagram_received`: raw compass ratios,
axis-reliability blend with floor 0.10, then a 0.03 deadzone. -/
noncomputable def energyLocalize (pN pE pW pS : ℝ) : ℝ × ℝ :=
  let eps : ℝ := 1e-12
  let sx_raw := (pE - pW) / (pE + pW + eps)
  let sy_raw := (pN - pS) / (pN + pS + eps)
  let totalE := pN + pE + pW + pS
  let x_frac := (pE + pW) / (totalE + eps)
  let y_frac := (pN + pS) / (totalE + eps)
  let sx := blend_to_zero sx_raw x_frac 0.10
  let sy := blend_to_zero sy_raw y_frac 0.10
  ((if |sx| < 0.03 then 0 else sx), (if |sy| < 0.03 then 0 else sy))

/-- Source `r = math.hypot(x, y)`. -/
noncomputable def hypotR (x y : ℝ) : ℝ := Real.sqrt (x * x + y * y)

/-! ### Fusion (`fuse_localization`) -/

/-- The `method_used` tag returned by `fuse_localization` (the numeric
payload of the formatted string is carried as data). -/
inductive FuseMethod where
  | energyOnly
  | lowConfAvg
  | agreeFuse (wE wT : ℝ)
  | disagreeFuse (wE wT : ℝ)
  | highDisagreeEnergy (eConf tConf : ℝ)

/-- Model of `fuse_localization`: energy-only fallback when TDOA is
missing, a 0.5 TDOA trust factor, the low-total-confidence unweighted
average, then the three disagreement branches. -/
noncomputable def fuse_localization (sxE syE eConf : ℝ)
    (sxT syT : Option ℝ) (tConf : ℝ) : ℝ × ℝ × FuseMethod :=
  match sxT, syT with
  | some a, some b =>
    let tEff := tConf * 0.5
    let dx := |sxE - a|
    let dy := |syE - b|
    let disagreement := Real.sqrt (dx * dx + dy * dy)
    let total := eConf + tEff
    if total < 0.1 then
      ((sxE + a) / 2, (syE + b) / 2, FuseMethod.lowConfAvg)
    else
      let wE := eConf / total
      let wT := tEff / total
      if disagreement < 0.2 then
        (wE * sxE + wT * a, wE * syE + wT * b, FuseMethod.agreeFuse wE wT)
      else if disagreement < 0.5 then
        let penalty := 1 - (disagreement - 0.2) / 0.3 * 0.3
        let wE1 := wE * penalty
        let wT1 := wT * penalty
        let tot := wE1 + wT1
        let wE2 := if 0 < tot then wE1 / tot else wE1
        let wT2 := if 0 < tot then wT1 / tot else wT1
        (wE2 * sxE + wT2 * a, wE2 * syE + wT2 * b,
          FuseMethod.disagreeFuse wE2 wT2)
      else (sxE, syE, FuseMethod.highDisagreeEnergy eConf tConf)
  | _, _ => (sxE, syE, FuseMethod.energyOnly)

end RealPipeline

/-! ## Deduper (cooldown, lines 683-692 of `datagram_received`) -/

/-- Instance default `self.cooldown_s = 0.35`. -/
def cooldown_s : ℚ := 0.35

/-- One deduper decision: `dt = now - last_accept`; drop when
`dt < cooldown_s` (leaving `last_accept` unchanged), else accept and
stamp `last_accept = now`. Returns `(accepted, new last_accept)`. -/
def dedupStep (lastAccept now : ℚ) : Bool × ℚ :=
  if now - lastAccept < cooldown_s then (false, lastAccept) else (true, now)

/-- Timestamps of the accepted hits when a sequence of classifier-passed
hits (given by their arrival times) runs through the deduper. -/
def acceptedTimes (lastAccept : ℚ) : List ℚ → List ℚ
  | [] => []
  | t :: ts =>
    if t - lastAccept < cooldown_s then acceptedTimes lastAccept ts
    else t :: acceptedTimes t ts

/-! ## Coordinate mapper (`xy_from_features`)

The fit argument is the JSON dict loaded from disk or produced by the
solver; we model it as an optional record of optional fields (`None` or
a non-dict value both map to `none`). Coefficients are numbers, so the
`float(...)` conversions cannot fail in the model; the `IndexError` on a
too-short coefficient list is modelled by the explicit length guard,
failure of any branch falling through exactly as the source's
`try/except: pass` does. -/

/-- Source `HALF_SPAN = 126.0 / 2.0` (cm). -/
def HALF_SPAN : ℚ := 63

/-- The `params` dict of a fit: `x`/`y` coefficient lists for the
`poly2_sxsy`/`linear_sxsy` models, letters `a`..`f` for the legacy
`affine_sxsy` model; any field may be missing. -/
structure FitParams where
  px : Option (List ℚ) := none
  py : Option (List ℚ) := none
  a : Option ℚ := none
  b : Option ℚ := none
  c : Option ℚ := none
  d : Option ℚ := none
  e : Option ℚ := none
  f : Option ℚ := none
  deriving DecidableEq

/-- A fit dict: `fit.get("model")` and `fit.get("params", {})`. -/
structure FitDict where
  model : Option String := none
  params : FitParams := {}
  deriving DecidableEq

/-- Source basis `[sx, sy, sx*sy, sx*sx, sy*sy, 1.0]`. -/
def feats6 (sx sy : ℚ) : List ℚ := [sx, sy, sx * sy, sx * sx, sy * sy, 1]

/-- Source basis `[sx, sy, 1.0]`. -/
def feats3 (sx sy : ℚ) : List ℚ := [sx, sy, 1]

/-- Source `sum(float(c[i]) * feats[i] for i in range(n))`. -/
def dotFeats (c feats : List ℚ) (n : ℕ) : ℚ :=
  ((List.range n).map (fun i => c.getD i 0 * feats.getD i 0)).sum

/-- The `poly2_sxsy` branch of `xy_from_features`; `none` when the
branch's `try` fails (missing params or a coefficient list shorter
than 6). -/
def tryPoly2 (fd : FitDict) (sx sy : ℚ) : Option (ℚ × ℚ) :=
  if fd.model = some "poly2_sxsy" then
    match fd.params.px, fd.params.py with
    | some cx, some cy =>
      if 6 ≤ cx.length ∧ 6 ≤ cy.length then
        some (dotFeats cx (feats6 sx sy) 6, dotFeats cy (feats6 sx sy) 6)
      else none
    | _, _ => none
  else none

/-- The `linear_sxsy` branch of `xy_from_features`. -/
def tryLinear (fd : FitDict) (sx sy : ℚ) : Option (ℚ × ℚ) :=
  if fd.model = some "linear_sxsy" then
    match fd.params.px, fd.params.py with
    | some cx, some cy =>
      if 3 ≤ cx.length ∧ 3 ≤ cy.length then
        some (dotFeats cx (feats3 sx sy) 3, dotFeats cy (feats3 sx sy) 3)
      else none
    | _, _ => none
  else none

/-- The legacy `affine_sxsy` branch of `xy_from_features`. -/
def tryAffine (fd : FitDict) (sx sy : ℚ) : Option (ℚ × ℚ) :=
  if fd.model = some "affine_sxsy" then
    match fd.params.a, fd.params.b, fd.params.c,
          fd.params.d, fd.params.e, fd.params.f with
    | some a, some b, some c, some d, some e, some f =>
      some (a * sx + b * sy + c, d * sx + e * sy + f)
    | _, _, _, _, _, _ => none
  else none

/-- Model of `xy_from_features`: try the three model branches in source
order, falling back to the uncalibrated mapping
`(HALF_SPAN * sx, HALF_SPAN * sy)`. -/
def xy_from_features (sx sy : ℚ) (fit : Option FitDict) : ℚ × ℚ :=
  match fit with
  | none => (HALF_SPAN * sx, HALF_SPAN * sy)
  | some fd =>
    match tryPoly2 fd sx sy with
    | some xy => xy
    | none =>
      match tryLinear fd sx sy with
      | some xy => xy
      | none =>
        match tryAffine fd sx sy with
        | some xy => xy
        | none => (HALF_SPAN * sx, HALF_SPAN * sy)

/-! ## Calibration solver (`backend/app.py`)

`_compute_fit_internal` builds a least-squares design matrix and calls
`np.linalg.lstsq` per axis. The solve is modelled by the normal
equations with Cramer's rule (the zero vector in the rank-deficient
case); the residual statistics (`mean_error_cm`, `max_error_cm`, which
need floating `sqrt`) are not carried, as no claim concerns them. What
matters for the claims is the model selection and that each solution
vector has exactly as many coefficients as design-matrix columns, which
`np.linalg.lstsq` guarantees and the `List.ofFn` over `Fin k` mirrors. -/

/-- A calibration sample dict as read by `_compute_fit_internal`
(`s.get("sx")`, `s.get("sy")`, `s.get("x_gt")`, `s.get("y_gt")`). -/
structure CalSample where
  sx : Option ℚ := none
  sy : Option ℚ := none
  x_gt : Option ℚ := none
  y_gt : Option ℚ := none
  deriving DecidableEq

/-- The validity filter: a sample with all four fields present. -/
def validOf (s : CalSample) : Option (ℚ × ℚ × ℚ × ℚ) :=
  match s.sx, s.sy, s.x_gt, s.y_gt with
  | some a, some b, some c, some d => some (a, b, c, d)
  | _, _, _, _ => none

/-- Least squares for `rows * p ≈ rhs` with `k` unknowns via the normal
equations and Cramer's rule; the returned coefficient list always has
length `k` (as `np.linalg.lstsq`'s solution does). -/
def lstsq (rows : List (List ℚ)) (rhs : List ℚ) (k : ℕ) : List ℚ :=
  let M : Matrix (Fin k) (Fin k) ℚ :=
    Matrix.of fun i j => ((rows.map fun row => row.getD i.1 0 * row.getD j.1 0)).sum
  let v : Fin k → ℚ :=
    fun i => (((rows.zip rhs).map fun rb => rb.1.getD i.1 0 * rb.2)).sum
  if M.det = 0 then List.ofFn (fun _ : Fin k => (0 : ℚ))
  else List.ofFn (fun i => (M.updateColumn i v).det / M.det)

/-- The fit dict returned by `_compute_fit_internal` (and installed as
the global `calibration_fit` on success): model tag, params, and the
sample count `n`. -/
structure FitResult where
  model : String
  params : FitParams
  n : ℕ
  deriving DecidableEq

/-- Model of `_compute_fit_internal`: `< 3` raw samples or `< 3` valid
samples error out; a quadratic basis is used for `≥ 6` valid samples,
linear otherwise; both axes are solved by least squares. -/
def compute_fit_internal (samples : List CalSample) :
    Option FitResult × Option String :=
  if samples.length < 3 then (none, some "need at least 3 samples")
  else
    let valid := samples.filterMap validOf
    let n := valid.length
    if n < 3 then (none, some "not enough valid samples")
    else
      let rows := valid.map fun s =>
        if 6 ≤ n then
          [s.1, s.2.1, s.1 * s.2.1, s.1 * s.1, s.2.1 * s.2.1, 1]
        else [s.1, s.2.1, 1]
      let bxs := valid.map fun s => s.2.2.1
      let bys := valid.map fun s => s.2.2.2
      let k := if 6 ≤ n then 6 else 3
      let px := lstsq rows bxs k
      let py := lstsq rows bys k
      let modelName := if 6 ≤ n then "poly2_sxsy" else "linear_sxsy"
      (some ⟨modelName, { px := some px, py := some py }, n⟩, none)

/-! ## Calibration apply (`/api/calibration/apply`, `backend/app.py`) -/

/-- The runtime fit `{model, params}` (the global `calibration_fit`,
also the shape persisted by `_save_fit_to_disk`). -/
structure RunFit where
  model : String
  params : FitParams
  deriving DecidableEq

/-- The `calibration` controller dict (fields `cal_apply` touches;
`pending` is reduced to whether a pending shot exists). -/
structure CalCtrl where
  active : Bool
  paused : Bool
  pendingShot : Bool
  samples : List CalSample
  fit : Option FitResult
  deriving DecidableEq

/-- The app-level state `cal_apply` reads and writes: the controller,
the active runtime fit, the persisted on-disk fit, and the mode. -/
structure AppState where
  cal : CalCtrl
  calibration_fit : Option RunFit
  disk : Option RunFit
  mode : String
  deriving DecidableEq

/-- Model of `cal_apply`: reject unless a computed fit exists with model
tag `affine_sxsy` or `poly2_sxsy`; on success install `{model, params}`
as the active fit, persist it (atomic temp+rename modelled as the `disk`
field update), exit calibration and return to shooting mode. Returns the
new state and the response `ok` flag. -/
def cal_apply (st : AppState) : AppState × Bool :=
  match st.cal.fit with
  | none => (st, false)
  | some fr =>
    if fr.model = "affine_sxsy" ∨ fr.model = "poly2_sxsy" then
      let cf : RunFit := ⟨fr.model, fr.params⟩
      (⟨⟨false, false, false, st.cal.samples, st.cal.fit⟩,
        some cf, some cf, "shooting"⟩, true)
    else (st, false)

/-! ## C1: models accepted by the calibration apply operation -/

/-- C1 (code-bug evidence): the `apply` endpoint rejects a stored
computed fit whose model tag is `linear_sxsy` — exactly the tag the
solver produces for 3-5 valid samples — returning an error response and
leaving the whole state, in particular the active calibration fit,
unchanged; the spec requires `apply` to accept `linear_sxsy`. -/
theorem cal_apply_rejects_linear_fit (st : AppState) (fr : FitResult)
    (hfit : st.cal.fit = some fr) (hm : fr.model = "linear_sxsy") :
    cal_apply st = (st, false) := by
  unfold cal_apply
  rw [hfit]
  dsimp only
  rw [hm, if_neg (by decide)]

/-- Witness for `cal_apply_rejects_linear_fit` at a concrete state. -/
theorem cal_apply_rejects_linear_fit_witness :
    cal_apply ⟨⟨true, false, false, [],
        some ⟨"linear_sxsy", {}, 3⟩⟩, none, none, "shooting"⟩ =
      (⟨⟨true, false, false, [],
        some ⟨"linear_sxsy", {}, 3⟩⟩, none, none, "shooting"⟩, false) :=
  cal_apply_rejects_linear_fit _ _ rfl rfl

/-! ## C6: deduper cooldown boundary and spacing of accepted hits -/

/-- Consecutive accepted hits are spaced by at least the cooldown, and
the first accepted hit comes at least a cooldown after the incoming
`last_accept` stamp. -/
theorem acceptedTimes_chain (ts : List ℚ) : ∀ lastAccept : ℚ,
    List.Chain' (fun a b => cooldown_s ≤ b - a)
      (acceptedTimes lastAccept ts) ∧
    ∀ h ∈ (acceptedTimes lastAccept ts).head?, cooldown_s ≤ h - lastAccept := by
  induction ts with
  | nil => intro lastAccept; simp [acceptedTimes]
  | cons t ts ih =>
    intro lastAccept
    by_cases hc : t - lastAccept < cooldown_s
    · simpa [acceptedTimes, hc] using ih lastAccept
    · have h1 := (ih t).1
      have h2 := (ih t).2
      refine ⟨?_, ?_⟩
      · simp only [acceptedTimes, if_neg hc]
        exact h1.cons' h2
      · simp only [acceptedTimes, if_neg hc, List.head?_cons,
          Option.mem_def, Option.some.injEq]
        rintro h rfl
        linarith [not_lt.mp hc]

/-- C6: a classifier-passed hit is accepted iff its delta to the
previous accepted hit is at least the 0.35 s cooldown — equality is
accepted — a smaller delta drops it without touching `last_accept`, and
along any run the accepted timestamps are pairwise at least a cooldown
apart. -/
theorem dedup_cooldown_boundary_and_spacing :
    (∀ lastAccept now : ℚ,
      ((dedupStep lastAccept now).1 = true ↔
        cooldown_s ≤ now - lastAccept) ∧
      (now - lastAccept < cooldown_s →
        dedupStep lastAccept now = (false, lastAccept)) ∧
      (dedupStep lastAccept (lastAccept + cooldown_s)).1 = true) ∧
    (∀ (lastAccept : ℚ) (ts : List ℚ),
      List.Chain' (fun a b => cooldown_s ≤ b - a)
        (acceptedTimes lastAccept ts)) := by
  constructor
  · intro lastAccept now
    refine ⟨?_, ?_, ?_⟩
    · by_cases h : now - lastAccept < cooldown_s
      · simp [dedupStep, h]
      · simp [dedupStep, h]
        linarith [not_lt.mp h]
    · intro h; simp [dedupStep, h]
    · simp [dedupStep]
  · intro lastAccept ts
    exact (acceptedTimes_chain ts lastAccept).1

/-- Witness for `dedup_cooldown_boundary_and_spacing`: a hit exactly at
the cooldown is accepted, one 0.2 s after the previous accepted hit is
dropped without updating the stamp, and a concrete run is well spaced. -/
theorem dedup_cooldown_boundary_and_spacing_witness :
    (dedupStep 0 (0 + cooldown_s)).1 = true ∧
    dedupStep 1 (6 / 5) = (false, 1) ∧
    List.Chain' (fun a b => cooldown_s ≤ b - a)
      (acceptedTimes 0 [1, 6 / 5, 7 / 5]) :=
  ⟨(dedup_cooldown_boundary_and_spacing.1 0 0).2.2,
   (dedup_cooldown_boundary_and_spacing.1 1 (6 / 5)).2.1
     (by norm_num [cooldown_s]),
   dedup_cooldown_boundary_and_spacing.2 0 [1, 6 / 5, 7 / 5]⟩

/-! ## C10: fallback behaviour of the coordinate mapper -/

/-- C10 (counterexample): a `poly2_sxsy` fit whose coefficient lists
have the wrong length (7 instead of 6) does not fall back to the
uncalibrated identity mapping — the first six coefficients are used. -/
theorem xy_from_features_long_list_cex :
    xy_from_features 1 0 (some ⟨some "poly2_sxsy",
        ⟨some [1, 0, 0, 0, 0, 0, 0], some [0, 0, 0, 0, 0, 0, 0],
         none, none, none, none, none, none⟩⟩) = (1, 0) ∧
    ((1 : ℚ), (0 : ℚ)) ≠ (HALF_SPAN * 1, HALF_SPAN * 0) := by
  constructor
  · norm_num [xy_from_features, tryPoly2, dotFeats, feats6,
      List.range_succ]
  · norm_num [HALF_SPAN, Prod.ext_iff]

/-- Coefficient entry `o` of a params dict is missing, or its list is
shorter than the `k` coefficients the model needs. -/
def ShortOrMissing (o : Option (List ℚ)) (k : ℕ) : Prop :=
  ∀ l, o = some l → l.length < k

/-- C10 (amended): for every `(sx, sy)`, the mapper falls back to the
uncalibrated `(63·sx, 63·sy)` whenever the fit is absent (or not a
dict), carries an unrecognized model tag, or carries a recognized tag
whose parameters are missing or (for the list models) shorter than the
model requires: 6 coefficients for `poly2_sxsy`, 3 for `linear_sxsy`,
and all six scalars `a`..`f` for `affine_sxsy`. (Lists longer than
required are accepted, using the leading coefficients.) -/
theorem xy_from_features_fallback (sx sy : ℚ) :
    (xy_from_features sx sy none = (HALF_SPAN * sx, HALF_SPAN * sy)) ∧
    (∀ fd : FitDict,
      fd.model ≠ some "poly2_sxsy" → fd.model ≠ some "linear_sxsy" →
      fd.model ≠ some "affine_sxsy" →
      xy_from_features sx sy (some fd) = (HALF_SPAN * sx, HALF_SPAN * sy)) ∧
    (∀ fd : FitDict, fd.model = some "poly2_sxsy" →
      ShortOrMissing fd.params.px 6 ∨ ShortOrMissing fd.params.py 6 →
      xy_from_features sx sy (some fd) = (HALF_SPAN * sx, HALF_SPAN * sy)) ∧
    (∀ fd : FitDict, fd.model = some "linear_sxsy" →
      ShortOrMissing fd.params.px 3 ∨ ShortOrMissing fd.params.py 3 →
      xy_from_features sx sy (some fd) = (HALF_SPAN * sx, HALF_SPAN * sy)) ∧
    (∀ fd : FitDict, fd.model = some "affine_sxsy" →
      fd.params.a = none ∨ fd.params.b = none ∨ fd.params.c = none ∨
      fd.params.d = none ∨ fd.params.e = none ∨ fd.params.f = none →
      xy_from_features sx sy (some fd) = (HALF_SPAN * sx, HALF_SPAN * sy)) := by
  have hdisj : ∀ m : Option String, m = some "poly2_sxsy" →
      m ≠ some "linear_sxsy" ∧ m ≠ some "affine_sxsy" := by
    rintro m rfl; constructor <;> simp
  refine ⟨rfl, ?_, ?_, ?_, ?_⟩
  · intro fd h1 h2 h3
    simp only [xy_from_features, tryPoly2, tryLinear, tryAffine,
      if_neg h1, if_neg h2, if_neg h3]
  · intro fd hm hshort
    have h2 : fd.model ≠ some "linear_sxsy" := by rw [hm]; simp
    have h3 : fd.model ≠ some "affine_sxsy" := by rw [hm]; simp
    have hp : tryPoly2 fd sx sy = none := by
      unfold tryPoly2
      rw [if_pos hm]
      rcases hx : fd.params.px with _ | cx
      · rcases fd.params.py with _ | cy <;> rfl
      · rcases hy : fd.params.py with _ | cy
        · rfl
        · dsimp only
          rw [if_neg]
          rcases hshort with hs | hs
          · intro hc; exact absurd hc.1 (not_le.mpr (hs cx hx))
          · intro hc; exact absurd hc.2 (not_le.mpr (hs cy hy))
    simp only [xy_from_features, hp, tryLinear, tryAffine,
      if_neg h2, if_neg h3]
  · intro fd hm hshort
    have h1 : fd.model ≠ some "poly2_sxsy" := by rw [hm]; simp
    have h3 : fd.model ≠ some "affine_sxsy" := by rw [hm]; simp
    have hp : tryLinear fd sx sy = none := by
      unfold tryLinear
      rw [if_pos hm]
      rcases hx : fd.params.px with _ | cx
      · rcases fd.params.py with _ | cy <;> rfl
      · rcases hy : fd.params.py with _ | cy
        · rfl
        · dsimp only
          rw [if_neg]
          rcases hshort with hs | hs
          · intro hc; exact absurd hc.1 (not_le.mpr (hs cx hx))
          · intro hc; exact absurd hc.2 (not_le.mpr (hs cy hy))
    simp only [xy_from_features, tryPoly2, tryAffine, hp,
      if_neg h1, if_neg h3]
  · intro fd hm hmiss
    have h1 : fd.model ≠ some "poly2_sxsy" := by rw [hm]; simp
    have h2 : fd.model ≠ some "linear_sxsy" := by rw [hm]; simp
    have hp : tryAffine fd sx sy = none := by
      unfold tryAffine
      rw [if_pos hm]
      rcases ha : fd.params.a with _ | a0 <;>
        rcases hb : fd.params.b with _ | b0 <;>
        rcases hc : fd.params.c with _ | c0 <;>
        rcases hd : fd.params.d with _ | d0 <;>
        rcases he : fd.params.e with _ | e0 <;>
        rcases hf : fd.params.f with _ | f0 <;>
        first
        | rfl
        | (exfalso
           rcases hmiss with h | h | h | h | h | h <;>
             simp_all)
    simp only [xy_from_features, tryPoly2, tryLinear, hp,
      if_neg h1, if_neg h2]

/-- Witness for `xy_from_features_fallback`: a fit with an unrecognized
model tag and a `poly2_sxsy` fit with a 5-entry coefficient list both
fall back to the identity mapping. -/
theorem xy_from_features_fallback_witness :
    xy_from_features 2 5 (some ⟨some "bogus_model", {}⟩) =
      (HALF_SPAN * 2, HALF_SPAN * 5) ∧
    xy_from_features 2 5 (some ⟨some "poly2_sxsy",
        ⟨some [1, 2, 3, 4, 5], some [1, 2, 3, 4, 5],
         none, none, none, none, none, none⟩⟩) =
      (HALF_SPAN * 2, HALF_SPAN * 5) := by
  have h := xy_from_features_fallback 2 5
  constructor
  · exact h.2.1 ⟨some "bogus_model", {}⟩ (by simp) (by simp) (by simp)
  · exact h.2.2.1 ⟨some "poly2_sxsy",
        ⟨some [1, 2, 3, 4, 5], some [1, 2, 3, 4, 5],
         none, none, none, none, none, none⟩⟩ rfl
        (Or.inl (by intro l hl; cases hl; decide))

/-! ## C2: exact ring-boundary scoring -/

/-- Ring radii strictly increase from ring 10 down to ring 1. -/
def NestedRings (t : RingTable) : Prop :=
  t.ring 10 < t.ring 9 ∧ t.ring 9 < t.ring 8 ∧ t.ring 8 < t.ring 7 ∧
  t.ring 7 < t.ring 6 ∧ t.ring 6 < t.ring 5 ∧ t.ring 5 < t.ring 4 ∧
  t.ring 4 < t.ring 3 ∧ t.ring 3 < t.ring 2 ∧ t.ring 2 < t.ring 1

instance (t : RingTable) : Decidable (NestedRings t) := by
  unfold NestedRings; infer_instance

/-- In a nested table, radii are antitone in the ring number. -/
theorem ring_anti {t : RingTable} (hn : NestedRings t) :
    ∀ a b, 1 ≤ a → a ≤ b → b ≤ 10 → t.ring b ≤ t.ring a := by
  obtain ⟨h1, h2, h3, h4, h5, h6, h7, h8, h9⟩ := hn
  intro a b ha hab hb
  have ha10 : a ≤ 10 := le_trans hab hb
  interval_cases a <;> interval_cases b <;> linarith

/-- In a nested table, radii are strictly antitone in the ring number. -/
theorem ring_anti_strict {t : RingTable} (hn : NestedRings t) :
    ∀ a b, 1 ≤ a → a < b → b ≤ 10 → t.ring b < t.ring a := by
  obtain ⟨h1, h2, h3, h4, h5, h6, h7, h8, h9⟩ := hn
  intro a b ha hab hb
  have ha10 : a ≤ 10 := le_trans (le_of_lt hab) hb
  interval_cases a <;> interval_cases b <;> linarith

/-- The 10 → 1 scan misses every ring whose radius is below `r`. -/
theorem scanRings_miss (t : RingTable) (r : ℚ) :
    ∀ m, (∀ s, 1 ≤ s → s ≤ m → t.ring s < r) → scanRings t r m = (0, false) := by
  intro m
  induction m with
  | zero => intro _; rfl
  | succ k ih =>
    intro h
    unfold scanRings
    rw [if_neg (not_le.mpr (h (k + 1) (Nat.succ_le_succ (Nat.zero_le k))
      (le_refl _)))]
    exact ih fun s h1 h2 => h s h1 (Nat.le_succ_of_le h2)

/-- The 10 → 1 scan stops at ring `k` when `r` fits in ring `k` but in
no tighter ring below the scan start. -/
theorem scanRings_hit (t : RingTable) (r : ℚ) (k : ℕ) (hk1 : 1 ≤ k)
    (hle : r ≤ t.ring k) :
    ∀ m, k ≤ m → (∀ s, k < s → s ≤ m → t.ring s < r) →
      scanRings t r m = (k, false) := by
  intro m
  induction m with
  | zero => intro hm _; exact absurd hm (by omega)
  | succ j ih =>
    intro hm h
    by_cases hkj : k = j + 1
    · subst hkj
      unfold scanRings
      rw [if_pos hle]
    · unfold scanRings
      rw [if_neg (not_le.mpr (h (j + 1) (by omega) (le_refl _)))]
      exact ih (by omega) fun s h1 h2 => h s h1 (by omega)

/-- C2 (counterexample): a table satisfying the claim's hypotheses with
the X radius equal to ring 10's radius — allowed by "X radius at most
ring 10's radius" — scores a shot exactly on ring 10's boundary as
`(10, true)`, not the `(10, false)` the claim asserts for every ring
boundary. -/
theorem score_from_r_tie_x_cex :
    NestedRings ⟨some 4, RINGS_CM.ring⟩ ∧
    (⟨some 4, RINGS_CM.ring⟩ : RingTable).xRing = some 4 ∧
    (4 : ℚ) ≤ RINGS_CM.ring 10 ∧ (0 : ℚ) ≤ RINGS_CM.ring 10 ∧
    score_from_r ⟨some 4, RINGS_CM.ring⟩ (RINGS_CM.ring 10) ≠ (10, false) := by
  refine ⟨by norm_num [NestedRings, RINGS_CM], rfl, by norm_num [RINGS_CM],
    by norm_num [RINGS_CM], ?_⟩
  have : score_from_r ⟨some 4, RINGS_CM.ring⟩ (RINGS_CM.ring 10) =
      (10, true) := by
    unfold score_from_r
    dsimp only
    rw [if_pos (by norm_num [RINGS_CM])]
  rw [this]
  simp

/-- C2 (amended): when the ring radii strictly increase from ring 10
down to ring 1 and the X radius is strictly below ring 10's radius, a
radius exactly on ring `k`'s boundary scores `(k, false)` (the tighter
score), a radius exactly on the X boundary scores `(10, true)`, and any
radius beyond ring 1 scores `(0, false)`. -/
theorem score_from_r_boundary_tight (t : RingTable) (xr : ℚ)
    (hx : t.xRing = some xr) (hn : NestedRings t) (hxr : xr < t.ring 10) :
    (∀ k, 1 ≤ k → k ≤ 10 → score_from_r t (t.ring k) = (k, false)) ∧
    score_from_r t xr = (10, true) ∧
    (∀ r : ℚ, t.ring 1 < r → score_from_r t r = (0, false)) := by
  have h10le : ∀ k, 1 ≤ k → k ≤ 10 → t.ring 10 ≤ t.ring k :=
    fun k h1 h2 => ring_anti hn k 10 h1 h2 (le_refl _)
  have hle1 : ∀ k, 1 ≤ k → k ≤ 10 → t.ring k ≤ t.ring 1 :=
    fun k h1 h2 => ring_anti hn 1 k (le_refl _) h1 h2
  refine ⟨?_, ?_, ?_⟩
  · intro k h1 h10
    unfold score_from_r
    rw [hx]
    dsimp only
    rw [if_neg (not_le.mpr (lt_of_lt_of_le hxr (h10le k h1 h10)))]
    exact scanRings_hit t (t.ring k) k h1 (le_refl _) 10 h10
      fun s hs1 hs2 => ring_anti_strict hn k s h1 hs1 hs2
  · unfold score_from_r
    rw [hx]
    dsimp only
    rw [if_pos (le_refl xr)]
  · intro r hr
    unfold score_from_r
    rw [hx]
    dsimp only
    rw [if_neg (not_le.mpr (by
      have := hle1 10 (by omega) (le_refl _)
      linarith))]
    exact scanRings_miss t r 10 fun s h1 h2 =>
      lt_of_le_of_lt (hle1 s h1 h2) hr

/-- Witness for `score_from_r_boundary_tight` on the default config
table: ring 9's boundary scores 9, the X boundary scores X, and 41 cm
misses. -/
theorem score_from_r_boundary_tight_witness :
    RINGS_CM.xRing = some 2 ∧ (2 : ℚ) < RINGS_CM.ring 10 ∧
    score_from_r RINGS_CM (RINGS_CM.ring 9) = (9, false) ∧
    score_from_r RINGS_CM 2 = (10, true) ∧
    score_from_r RINGS_CM 41 = (0, false) := by
  obtain ⟨h1, h2, h3⟩ := score_from_r_boundary_tight RINGS_CM 2 rfl
    (by norm_num [NestedRings, RINGS_CM]) (by norm_num [RINGS_CM])
  exact ⟨rfl, by norm_num [RINGS_CM], h1 9 (by omega) (by omega), h2,
    h3 41 (by norm_num [RINGS_CM])⟩

/-! ## C9: session capacity invariant of `add_shot` -/

/-- Appending a shot to the last end preserves the capacity invariant
when the last end has room. -/
theorem push_inv (A N : ℕ) (sh : Shot) (l : List (List Shot)) (hne : l ≠ [])
    (hmem : ∀ e ∈ l, e.length ≤ A) (hlen : l.length ≤ max 1 N)
    (hroom : (l.getLast?.getD []).length + 1 ≤ A) :
    SessInv ⟨l.dropLast ++ [(l.getLast?.getD []) ++ [sh]], A, N⟩ := by
  constructor
  · intro e he
    simp only at he
    rw [List.mem_append] at he
    rcases he with he | he
    · exact hmem e ((List.dropLast_sublist l).subset he)
    · rw [List.mem_singleton] at he
      subst he
      simpa using hroom
  · have h1 : 0 < l.length := List.length_pos.mpr hne
    simp only [List.length_append, List.length_dropLast, List.length_cons,
      List.length_nil]
    have hx : l.length - 1 + (0 + 1) = l.length := by omega
    rw [hx]
    exact hlen

/-- Model of one `add_shot` step preserving the capacity invariant. -/
theorem add_shot_inv (st : SessionState) (sh : Shot)
    (hA : 1 ≤ st.arrows_per_end) (h : SessInv st) :
    SessInv (add_shot st sh) := by
  obtain ⟨hmem, hlen⟩ := h
  obtain ⟨ends, A, N⟩ := st
  simp only at hmem hlen hA
  have hne0 : (if ends.isEmpty then [([] : List Shot)] else ends) ≠ [] := by
    cases ends <;> simp
  have hmem0 : ∀ e ∈ (if ends.isEmpty then [([] : List Shot)] else ends),
      e.length ≤ A := by
    cases ends with
    | nil => simp
    | cons a l => simpa using hmem
  have hlen0 : (if ends.isEmpty then [([] : List Shot)] else ends).length ≤
      max 1 N := by
    cases ends with
    | nil => simp
    | cons a l => simpa using hlen
  set ends0 := if ends.isEmpty then [([] : List Shot)] else ends with hE0
  show SessInv (add_shot ⟨ends, A, N⟩ sh)
  have hstep : add_shot ⟨ends, A, N⟩ sh =
      let ends1 := if A ≤ (ends0.getLast?.getD []).length then
          (if ends0.length < N then ends0 ++ [[]]
           else ends0.dropLast ++ [[]])
        else ends0
      ⟨ends1.dropLast ++ [(ends1.getLast?.getD []) ++ [sh]], A, N⟩ := rfl
  rw [hstep]
  by_cases c1 : A ≤ (ends0.getLast?.getD []).length
  · by_cases c2 : ends0.length < N
    · simp only [if_pos c1, if_pos c2]
      apply push_inv A N sh _ (by simp) _ _ _
      · intro e he
        rw [List.mem_append] at he
        rcases he with he | he
        · exact hmem0 e he
        · rw [List.mem_singleton] at he; subst he; simp
      · rw [List.length_append]
        have : ends0.length + 1 ≤ N := c2
        simp only [List.length_cons, List.length_nil]
        omega
      · rw [List.getLast?_concat]
        simpa using hA
    · simp only [if_pos c1, if_neg c2]
      apply push_inv A N sh _ (by simp) _ _ _
      · intro e he
        rw [List.mem_append] at he
        rcases he with he | he
        · exact hmem0 e ((List.dropLast_sublist ends0).subset he)
        · rw [List.mem_singleton] at he; subst he; simp
      · rw [List.length_append, List.length_dropLast]
        have h1 : 0 < ends0.length := List.length_pos.mpr hne0
        simp only [List.length_cons, List.length_nil]
        omega
      · rw [List.getLast?_concat]
        simpa using hA
  · simp only [if_neg c1]
    exact push_inv A N sh ends0 hne0 hmem0 hlen0 (by omega)

/-- Any run of `add_shot` from an empty session keeps the invariant. -/
theorem foldl_add_shot_inv (shots : List Shot) :
    ∀ st : SessionState, 1 ≤ st.arrows_per_end → SessInv st →
      SessInv (shots.foldl add_shot st) := by
  induction shots with
  | nil => intro st _ h; exact h
  | cons a shots ih =>
    intro st hA h
    exact ih (add_shot st a) hA (add_shot_inv st a hA h)

/-- C9: with at least one arrow per end, every `add_shot` preserves the
invariant that every end holds at most `arrows_per_end` shots and the
number of ends never exceeds `max 1 num_ends`; any run from the empty
session keeps it; and when all `num_ends` ends are present and the last
end is full, the next `add_shot` discards the final end's shots and
replaces it by a fresh end holding only the new shot. -/
theorem session_add_shot_capacity (st : SessionState) (sh : Shot)
    (hA : 1 ≤ st.arrows_per_end) :
    (SessInv st → SessInv (add_shot st sh)) ∧
    (∀ shots : List Shot,
      SessInv (shots.foldl add_shot ⟨[], st.arrows_per_end, st.num_ends⟩)) ∧
    (st.ends ≠ [] → st.ends.length = st.num_ends →
      st.arrows_per_end ≤ (st.ends.getLast?.getD []).length →
      (add_shot st sh).ends = st.ends.dropLast ++ [[sh]]) := by
  refine ⟨add_shot_inv st sh hA, ?_, ?_⟩
  · intro shots
    exact foldl_add_shot_inv shots ⟨[], st.arrows_per_end, st.num_ends⟩ hA
      ⟨by simp, by simp⟩
  · intro hne heq hfull
    obtain ⟨ends, A, N⟩ := st
    simp only at hne heq hfull ⊢
    have hie : ends.isEmpty = false := by
      cases ends with
      | nil => exact absurd rfl hne
      | cons a l => rfl
    have hstep : add_shot ⟨ends, A, N⟩ sh =
        let ends1 := if A ≤ (ends.getLast?.getD []).length then
            (if ends.length < N then ends ++ [[]]
             else ends.dropLast ++ [[]])
          else ends
        ⟨ends1.dropLast ++ [(ends1.getLast?.getD []) ++ [sh]], A, N⟩ := by
      simp only [add_shot, hie, Bool.false_eq_true, if_false]
    rw [hstep]
    simp only [if_pos hfull, heq, lt_self_iff_false, if_false,
      List.dropLast_concat, List.getLast?_concat, Option.getD_some,
      List.nil_append]

/-- Witness for `session_add_shot_capacity`: a one-end one-arrow session
that is full; the next shot overwrites the final end. -/
theorem session_add_shot_capacity_witness :
    (1 ≤ (⟨[[⟨0, 0, 0, 0, 5, false⟩]], 1, 1⟩ : SessionState).arrows_per_end) ∧
    SessInv (add_shot ⟨[[⟨0, 0, 0, 0, 5, false⟩]], 1, 1⟩
      ⟨1, 2, 3, 4, 9, false⟩) ∧
    SessInv ([⟨1, 2, 3, 4, 9, false⟩, ⟨2, 3, 4, 5, 8, true⟩].foldl add_shot
      ⟨[], 1, 1⟩) ∧
    (add_shot ⟨[[⟨0, 0, 0, 0, 5, false⟩]], 1, 1⟩
      ⟨1, 2, 3, 4, 9, false⟩).ends = [[⟨1, 2, 3, 4, 9, false⟩]] := by
  have h := session_add_shot_capacity ⟨[[⟨0, 0, 0, 0, 5, false⟩]], 1, 1⟩
    ⟨1, 2, 3, 4, 9, false⟩ (by decide)
  refine ⟨by decide, h.1 (by decide), h.2.1 _, ?_⟩
  have h3 := h.2.2 (by decide) (by decide) (by decide)
  simpa using h3

/-! ## C3: solver model selection and coefficient-vector lengths -/

/-- The least-squares solve always returns one coefficient per
design-matrix column. -/
theorem lstsq_length (rows : List (List ℚ)) (rhs : List ℚ) (k : ℕ) :
    (lstsq rows rhs k).length = k := by
  simp only [lstsq]
  split
  · exact List.length_ofFn _
  · exact List.length_ofFn _

/-- C3: whenever at least 3 valid samples are present, the solver
succeeds; with `n ≥ 6` valid samples the installed fit is `poly2_sxsy`
with exactly 6 coefficients per axis, with `3 ≤ n ≤ 5` it is
`linear_sxsy` with exactly 3 coefficients per axis — so the installed
fit's coefficient-vector lengths always match its model. -/
theorem computeFit_coeff_lengths_match_model (samples : List CalSample)
    (h3 : 3 ≤ (samples.filterMap validOf).length) :
    ∃ fr : FitResult, (compute_fit_internal samples).1 = some fr ∧
      (compute_fit_internal samples).2 = none ∧
      fr.n = (samples.filterMap validOf).length ∧
      (6 ≤ fr.n → fr.model = "poly2_sxsy" ∧
        (∃ lx, fr.params.px = some lx ∧ lx.length = 6) ∧
        (∃ ly, fr.params.py = some ly ∧ ly.length = 6)) ∧
      (fr.n ≤ 5 → fr.model = "linear_sxsy" ∧
        (∃ lx, fr.params.px = some lx ∧ lx.length = 3) ∧
        (∃ ly, fr.params.py = some ly ∧ ly.length = 3)) := by
  have hlen : ¬(samples.length < 3) :=
    not_lt.mpr (le_trans h3 (List.length_filterMap_le _ _))
  unfold compute_fit_internal
  rw [if_neg hlen]
  simp only
  rw [if_neg (not_lt.mpr h3)]
  by_cases h6 : 6 ≤ (samples.filterMap validOf).length
  · simp only [if_pos h6]
    refine ⟨_, rfl, trivial, rfl, fun _ => ?_, fun h5 => ?_⟩
    · exact ⟨rfl, ⟨_, rfl, lstsq_length _ _ 6⟩, ⟨_, rfl, lstsq_length _ _ 6⟩⟩
    · exfalso
      dsimp only at h5
      omega
  · simp only [if_neg h6]
    refine ⟨_, rfl, trivial, rfl, fun hx => ?_, fun _ => ?_⟩
    · exfalso
      dsimp only at hx
      omega
    · exact ⟨rfl, ⟨_, rfl, lstsq_length _ _ 3⟩, ⟨_, rfl, lstsq_length _ _ 3⟩⟩

/-- Witness for `computeFit_coeff_lengths_match_model`: three valid
samples produce a `linear_sxsy` fit. -/
theorem computeFit_coeff_lengths_match_model_witness :
    (3 ≤ (([⟨some 1, some 0, some 10, some 0⟩,
            ⟨some 0, some 1, some 0, some 10⟩,
            ⟨some 0, some 0, some 1, some 1⟩] :
        List CalSample).filterMap validOf).length) ∧
    (∃ fr : FitResult,
      (compute_fit_internal [⟨some 1, some 0, some 10, some 0⟩,
        ⟨some 0, some 1, some 0, some 10⟩,
        ⟨some 0, some 0, some 1, some 1⟩]).1 = some fr ∧
      fr.model = "linear_sxsy" ∧
      (∃ lx, fr.params.px = some lx ∧ lx.length = 3)) := by
  refine ⟨by decide, ?_⟩
  obtain ⟨fr, h1, _, hn, _, h5⟩ := computeFit_coeff_lengths_match_model
    [⟨some 1, some 0, some 10, some 0⟩,
     ⟨some 0, some 1, some 0, some 10⟩,
     ⟨some 0, some 0, some 1, some 1⟩] (by decide)
  have hfive : fr.n ≤ 5 := by rw [hn]; decide
  exact ⟨fr, h1, (h5 hfive).1, (h5 hfive).2.1⟩

/-! ## C5: high-disagreement fusion -/

/-- The disagreement of the spec's example inputs, energy `(0.4, 0)`
against TDOA `(−0.8, 0.3)`, is at least 0.5. -/
theorem half_le_example_disagreement :
    (0.5 : ℝ) ≤ Real.sqrt (|(0.4 : ℝ) - (-0.8)| * |(0.4 : ℝ) - (-0.8)| +
      |(0 : ℝ) - 0.3| * |(0 : ℝ) - 0.3|) := by
  have h1 : |(0.4 : ℝ) - (-0.8)| = 1.2 := by
    rw [abs_of_pos (by norm_num : (0 : ℝ) < 0.4 - (-0.8))]
    norm_num
  have h2 : |(0 : ℝ) - 0.3| = 0.3 := by
    rw [abs_of_neg (by norm_num : (0 : ℝ) - 0.3 < 0)]
    norm_num
  rw [h1, h2]
  rw [show (1.2 : ℝ) * 1.2 + 0.3 * 0.3 = 1.53 by norm_num]
  rw [Real.le_sqrt (by norm_num) (by norm_num)]
  norm_num

/-- C5 (counterexample): on the spec's own example estimates but with
both confidences zero, the disagreement is ≥ 0.5 yet `fuse_localization`
returns the unweighted average `(−0.2, 0.15)` tagged `low_conf_avg` —
the low-total-confidence branch runs before the disagreement branches,
so the output is not the energy estimate regardless of confidences. -/
theorem fuse_high_disagree_low_conf_cex :
    (0.5 : ℝ) ≤ Real.sqrt (|(0.4 : ℝ) - (-0.8)| * |(0.4 : ℝ) - (-0.8)| +
      |(0 : ℝ) - 0.3| * |(0 : ℝ) - 0.3|) ∧
    fuse_localization 0.4 0 0 (some (-0.8)) (some 0.3) 0 =
      (-0.2, 0.15, FuseMethod.lowConfAvg) := by
  refine ⟨half_le_example_disagreement, ?_⟩
  simp only [fuse_localization]
  rw [if_pos (by norm_num : (0 : ℝ) + 0 * 0.5 < 0.1)]
  norm_num [Prod.ext_iff]

/-- C5 (amended): whenever the effective total confidence
`energy_conf + 0.5·tdoa_conf` is at least 0.1 and the disagreement is at
least 0.5, fusion returns exactly the energy estimate tagged
`high_disagree_energy`; below total confidence 0.1 the unweighted
average wins instead. -/
theorem fuse_high_disagree_energy_amended (sxE syE eConf a b tConf : ℝ)
    (hconf : 0.1 ≤ eConf + tConf * 0.5)
    (hdis : 0.5 ≤ Real.sqrt (|sxE - a| * |sxE - a| + |syE - b| * |syE - b|)) :
    fuse_localization sxE syE eConf (some a) (some b) tConf =
      (sxE, syE, FuseMethod.highDisagreeEnergy eConf tConf) := by
  simp only [fuse_localization]
  rw [if_neg (not_lt.mpr hconf)]
  rw [if_neg (not_lt.mpr (le_trans (by norm_num) hdis))]
  rw [if_neg (not_lt.mpr hdis)]

/-- Witness for `fuse_high_disagree_energy_amended` on the spec's
example: energy `(0.4, 0)` vs TDOA `(−0.8, 0.3)` with ordinary
confidences yields the energy estimate. -/
theorem fuse_high_disagree_energy_amended_witness :
    (0.1 : ℝ) ≤ 0.5 + 0.2 * 0.5 ∧
    fuse_localization 0.4 0 0.5 (some (-0.8)) (some 0.3) 0.2 =
      (0.4, 0, FuseMethod.highDisagreeEnergy 0.5 0.2) :=
  ⟨by norm_num,
   fuse_high_disagree_energy_amended 0.4 0 0.5 (-0.8) 0.3 0.2 (by norm_num)
     half_le_example_disagreement⟩

/-! ## C8: balanced burst maps to a dead-center X -/

/-- Blending a zero ratio always yields zero. -/
theorem blend_to_zero_zero (frac floor : ℝ) :
    blend_to_zero 0 frac floor = 0 := by
  have h1 : max (-1 : ℝ) (min 1 0) = 0 := by
    rw [min_eq_right (by norm_num : (0 : ℝ) ≤ 1),
      max_eq_right (by norm_num : (-1 : ℝ) ≤ 0)]
  unfold blend_to_zero
  split_ifs
  · rfl
  · exact h1
  · rw [zero_mul]
    exact h1

/-- C8: a burst whose compass energies are balanced on both axes
(`pE = pW`, `pN = pS`, positive axis totals) localizes to `(0, 0)`; the
identity (no-fit) calibration maps that to `(0, 0)` cm, the radius is 0,
and the default ring table scores it as an X: `(10, true)`. -/
theorem balanced_burst_center_x (pN pE pW pS : ℝ)
    (hEW : pE = pW) (hNS : pN = pS)
    (_hx : 0 < pE + pW) (_hy : 0 < pN + pS) :
    energyLocalize pN pE pW pS = (0, 0) ∧
    xy_from_features 0 0 none = (0, 0) ∧
    hypotR 0 0 = 0 ∧
    score_from_r RINGS_CM 0 = (10, true) := by
  refine ⟨?_, ?_, ?_, ?_⟩
  · simp only [energyLocalize, hEW, hNS, sub_self, zero_div,
      blend_to_zero_zero, abs_zero]
    norm_num
  · show (HALF_SPAN * 0, HALF_SPAN * 0) = ((0 : ℚ), (0 : ℚ))
    norm_num [HALF_SPAN, Prod.ext_iff]
  · simp [hypotR]
  · have hstep : score_from_r RINGS_CM 0 =
        if (0 : ℚ) ≤ 2 then (10, true) else scanRings RINGS_CM 0 10 := rfl
    rw [hstep, if_pos (by norm_num)]

/-- Witness for `balanced_burst_center_x`: all four channel energies
equal (the spec's `energy_sq = 1000` burst). -/
theorem balanced_burst_center_x_witness :
    energyLocalize 1000 1000 1000 1000 = (0, 0) ∧
    xy_from_features 0 0 none = (0, 0) ∧
    hypotR 0 0 = 0 ∧
    score_from_r RINGS_CM 0 = (10, true) :=
  balanced_burst_center_x 1000 1000 1000 1000 rfl rfl (by norm_num)
    (by norm_num)

/-! ## Classifier evaluation helpers

A "concentrated" burst has all its energy in channel 0 and its only
peak in channel 0 — the simplest burst shape that can pass the
dominance, entropy and top-two gates. -/

/-- Burst with energy `c` and peak `p`, both entirely in channel 0. -/
noncomputable def concBurst (c p : ℝ) : Burst :=
  ⟨fun i => [c, 0, 0, 0].getD i.1 0, fun i => [p, 0, 0, 0].getD i.1 0⟩

/-- Channel energies of a concentrated burst. -/
theorem chList_concBurst (c p : ℝ) :
    chList (concBurst c p) = [c, 0, 0, 0] := rfl

/-- Channel peaks of a concentrated burst. -/
theorem peakList_concBurst (c p : ℝ) :
    peakList (concBurst c p) = [p, 0, 0, 0] := rfl

/-- All derived features of a concentrated burst with positive energy
and peak. -/
theorem concBurst_feats (c p : ℝ) (hc : (1e-9 : ℝ) < c) (hp : 0 < p) :
    sumEnergy (concBurst c p) = c ∧
    compassEnergy (concBurst c p) = c ∧
    maxEnergy (concBurst c p) = c ∧
    maxPeak (concBurst c p) = p ∧
    peakOver (concBurst c p) = p ∧
    dom (concBurst c p) = 1 ∧
    entropy (concBurst c p) = -Real.log (1 + 1e-12) ∧
    top2 (concBurst c p) = 1 := by
  have hcpos : (0 : ℝ) < c := lt_trans (by norm_num) hc
  have hc0 : (0 : ℝ) ≤ c := le_of_lt hcpos
  have hcne : c ≠ 0 := ne_of_gt hcpos
  have hp0 : (0 : ℝ) ≤ p := le_of_lt hp
  have he0 : (concBurst c p).e 0 = c := rfl
  have he1 : (concBurst c p).e 1 = 0 := rfl
  have he2 : (concBurst c p).e 2 = 0 := rfl
  have he3 : (concBurst c p).e 3 = 0 := rfl
  have hq0 : (concBurst c p).p 0 = p := rfl
  have hq1 : (concBurst c p).p 1 = 0 := rfl
  have hq2 : (concBurst c p).p 2 = 0 := rfl
  have hq3 : (concBurst c p).p 3 = 0 := rfl
  have hsum : sumEnergy (concBurst c p) = c := by
    rw [sumEnergy, chList_concBurst]
    simp
  have hcomp : compassEnergy (concBurst c p) = c := by
    simp only [compassEnergy, compN, compE, compW, compS, he0, he1, he2, he3]
    ring
  have hmaxE : maxEnergy (concBurst c p) = c := by
    simp only [maxEnergy, List.foldl, he0, he1, he2, he3]
    rw [max_eq_left hc0, max_eq_left hc0, max_eq_left hc0]
  have hmaxP : maxPeak (concBurst c p) = p := by
    simp only [maxPeak, List.foldl, hq0, hq1, hq2, hq3]
    rw [max_eq_left hp0, max_eq_left hp0, max_eq_left hp0]
  have hsort : sortedPeaks (concBurst c p) = [0, 0, 0, p] := by
    rw [sortedPeaks, peakList_concBurst]
    simp [List.insertionSort, List.orderedInsert, not_le.mpr hp]
  have hmed : peakMedian (concBurst c p) = 0 := by
    have hlen : ([0, 0, 0, p] : List ℝ).length / 2 = 2 := by norm_num
    rw [peakMedian, hsort, hlen]
    rfl
  have hpo : peakOver (concBurst c p) = p := by
    rw [peakOver, hmaxP, hmed, sub_zero]
  have hdom : dom (concBurst c p) = 1 := by
    rw [dom, hsum, hmaxE, if_pos hc, div_self hcne]
  have hent : entropy (concBurst c p) = -Real.log (1 + 1e-12) := by
    rw [entropy, hsum, chList_concBurst, if_pos hc]
    simp only [List.map_cons, List.map_nil, List.sum_cons, List.sum_nil]
    rw [max_eq_left hc0, div_self hcne]
    simp [max_self]
  have hdesc : sortedEnergiesDesc (concBurst c p) = [c, 0, 0, 0] := by
    rw [sortedEnergiesDesc, chList_concBurst]
    simp [List.insertionSort, List.orderedInsert, hc0]
  have htop : top2 (concBurst c p) = 1 := by
    rw [top2, hdesc, hsum]
    rw [if_pos ⟨by norm_num, hc⟩]
    simp only [List.getD_cons_zero, List.getD_cons_succ]
    rw [add_zero, div_self hcne]
  exact ⟨hsum, hcomp, hmaxE, hmaxP, hpo, hdom, hent, htop⟩

/-- The entropy of a concentrated burst passes the `≤ 1.00` gate. -/
theorem neg_log_le_one : -Real.log (1 + 1e-12) ≤ (1 : ℝ) := by
  have h := Real.log_nonneg (by norm_num : (1 : ℝ) ≤ 1 + 1e-12)
  linarith

/-! ## C4: the weighted-score stage decides HIT exactly by threshold
and low-energy override -/

/-- C4: for every burst that reaches the weighted-score stage, the final
label is HIT iff the rubric score meets the mode threshold and the
low-energy override does not fire, i.e. iff
`score ≥ thresh ∧ ¬(sum_energy < 5000 ∧ score < thresh + 5)`. -/
theorem classifier_weighted_stage_iff (b : Burst) (ema : ℝ) (isCal : Bool)
    (h : ReachesScoreStage b isCal) :
    classifyHit b ema isCal = true ↔
      (scoreThresh isCal ≤ rubricScore b ema ∧
        ¬(compassEnergy b < 5000 ∧
          rubricScore b ema < scoreThresh isCal + 5)) := by
  obtain ⟨g1, g2, g3, g4, g5, g6, g7, g8⟩ := h
  simp only [classifyHit]
  rw [if_neg g1, if_neg g2, if_neg g3, if_neg g4, if_neg (not_not_intro g5),
    if_neg g6, if_neg g7, if_neg g8]
  by_cases hs : scoreThresh isCal ≤ rubricScore b ema
  · rw [if_pos hs]
    by_cases ho : compassEnergy b < 5000 ∧
        rubricScore b ema < scoreThresh isCal + 5
    · rw [if_pos ho]
      exact iff_of_false (by simp) fun hcon => hcon.2 ho
    · rw [if_neg ho]
      exact iff_of_true rfl ⟨hs, ho⟩
  · rw [if_neg hs]
    exact iff_of_false (by simp) fun hcon => hs hcon.1

/-- Witness for `classifier_weighted_stage_iff`: a strong concentrated
burst in shooting mode reaches the score stage, and the iff holds
there. -/
theorem classifier_weighted_stage_iff_witness :
    ReachesScoreStage (concBurst 6000 700) false ∧
    (classifyHit (concBurst 6000 700) 6000 false = true ↔
      (scoreThresh false ≤ rubricScore (concBurst 6000 700) 6000 ∧
        ¬(compassEnergy (concBurst 6000 700) < 5000 ∧
          rubricScore (concBurst 6000 700) 6000 < scoreThresh false + 5))) := by
  obtain ⟨hsum, hcomp, hmaxE, hmaxP, hpo, hdom, hent, htop⟩ :=
    concBurst_feats 6000 700 (by norm_num) (by norm_num)
  have hreach : ReachesScoreStage (concBurst 6000 700) false := by
    refine ⟨?_, ?_, ?_, ?_, ?_, ?_, ?_, ?_⟩
    · rw [hcomp]; norm_num
    · rw [hmaxE]; norm_num
    · rw [hdom, hcomp]; norm_num
    · rw [hcomp]; norm_num
    · rw [hcomp]; norm_num
    · rw [hcomp, hmaxP]; norm_num
    · simp
    · simp
  exact ⟨hreach, classifier_weighted_stage_iff (concBurst 6000 700) 6000
    false hreach⟩

/-! ## C7: a burst with total energy exactly `MIN_ENERGY` -/

/-- C7 (counterexample): a burst with total energy exactly 25 — all of
it in one channel, with a 700 peak there — is classified HIT in
shooting mode (score 18 ≥ threshold + 5), so equality with `MIN_ENERGY`
does not force GHOST. -/
theorem min_energy_boundary_hit_cex :
    compassEnergy (concBurst 25 700) = 25 ∧
    classifyHit (concBurst 25 700) 25 false = true := by
  obtain ⟨hsum, hcomp, hmaxE, hmaxP, hpo, hdom, hent, htop⟩ :=
    concBurst_feats 25 700 (by norm_num) (by norm_num)
  have hdelta : deltaOf (concBurst 25 700) 25 = 0 := by
    rw [deltaOf, emaPrevOf, hcomp, if_neg (by norm_num : (25 : ℝ) ≠ 0)]
    ring
  have hscore : rubricScore (concBurst 25 700) 25 = 18 := by
    simp only [rubricScore, hcomp, hmaxP, hdom, hpo, hent, htop, hdelta]
    rw [if_pos neg_log_le_one]
    norm_num
  refine ⟨hcomp, ?_⟩
  simp only [classifyHit, hcomp, hmaxE, hmaxP, hdom, hpo, hscore]
  norm_num [scoreThresh]

/-- C7 (amended): a burst with total energy exactly `MIN_ENERGY = 25`
passes the hard-minimum energy gate (the threshold is strict `<`); in
calibration mode it is always GHOST (the 5000 calibration energy floor),
while in shooting mode it is HIT exactly when the max-energy, dominance
and peak gates pass and the rubric score reaches `threshold + 5 = 15` —
which is attainable — and GHOST otherwise. -/
theorem min_energy_boundary_amended (b : Burst) (ema : ℝ)
    (h25 : compassEnergy b = 25) :
    classifyHit b ema true = false ∧
    (classifyHit b ema false = true ↔
      (12 ≤ maxEnergy b ∧ 0.35 ≤ dom b ∧ 320 ≤ maxPeak b ∧
        15 ≤ rubricScore b ema)) := by
  constructor
  · simp only [classifyHit, h25]
    rw [if_pos (show (True ∧ (25 : ℝ) < 5000) from ⟨trivial, by norm_num⟩)]
    split_ifs <;> rfl
  · simp only [classifyHit, h25]
    rw [show scoreThresh false = (10 : ℤ) from rfl]
    rw [if_neg (show ¬((25 : ℝ) < 25) by norm_num)]
    by_cases h2 : maxEnergy b < 12
    · rw [if_pos h2]
      exact iff_of_false (by simp) fun hc => absurd h2 (not_lt.mpr hc.1)
    · rw [if_neg h2]
      by_cases h3 : dom b < 0.35 ∧ (25 : ℝ) < 10000
      · rw [if_pos h3]
        exact iff_of_false (by simp) fun hc => absurd h3.1 (not_lt.mpr hc.2.1)
      · rw [if_neg h3]
        by_cases h4 : (25 : ℝ) < 200 ∧ maxPeak b < 300 ∧ peakOver b < 10
        · rw [if_pos h4]
          exact iff_of_false (by simp) fun hc =>
            absurd h4.2.1 (not_lt.mpr (le_trans (by norm_num) hc.2.2.1))
        · rw [if_neg h4]
          by_cases h5 : ¬((300 : ℝ) ≤ 25 ∨ 300 ≤ maxPeak b ∨ 10 ≤ peakOver b)
          · rw [if_pos h5]
            exact iff_of_false (by simp) fun hc =>
              h5 (Or.inr (Or.inl (le_trans (by norm_num) hc.2.2.1)))
          · rw [if_neg h5]
            by_cases h6 : maxPeak b < 320 ∧ (25 : ℝ) < 2000
            · rw [if_pos h6]
              exact iff_of_false (by simp) fun hc =>
                absurd h6.1 (not_lt.mpr hc.2.2.1)
            · rw [if_neg h6]
              have hpk : 320 ≤ maxPeak b :=
                not_lt.mp fun hlt => h6 ⟨hlt, by norm_num⟩
              rw [if_neg (show ¬(false = true ∧ (25 : ℝ) < 5000) by simp)]
              rw [if_neg (show ¬(false = true ∧
                ¬((320 : ℝ) ≤ maxPeak b ∨ (300 : ℝ) ≤ 25)) by simp)]
              by_cases hts : (10 : ℤ) ≤ rubricScore b ema
              · rw [if_pos hts]
                by_cases ho : (25 : ℝ) < 5000 ∧ rubricScore b ema < 10 + 5
                · rw [if_pos ho]
                  refine iff_of_false (by simp) fun hc => ?_
                  have h15 := hc.2.2.2
                  have hlt := ho.2
                  linarith
                · rw [if_neg ho]
                  refine iff_of_true rfl ⟨not_lt.mp h2, ?_, hpk, ?_⟩
                  · exact not_lt.mp fun hd => h3 ⟨hd, by norm_num⟩
                  · have h15 : ¬(rubricScore b ema < 10 + 5) :=
                      fun hlt => ho ⟨by norm_num, hlt⟩
                    have := not_lt.mp h15
                    linarith
              · rw [if_neg hts]
                exact iff_of_false (by simp) fun hc => hts (by linarith [hc.2.2.2])

/-- Witness for `min_energy_boundary_amended` at the concentrated
25-energy, 700-peak burst. -/
theorem min_energy_boundary_amended_witness :
    compassEnergy (concBurst 25 700) = 25 ∧
    classifyHit (concBurst 25 700) 25 true = false ∧
    (classifyHit (concBurst 25 700) 25 false = true ↔
      (12 ≤ maxEnergy (concBurst 25 700) ∧ 0.35 ≤ dom (concBurst 25 700) ∧
        320 ≤ maxPeak (concBurst 25 700) ∧
        15 ≤ rubricScore (concBurst 25 700) 25)) := by
  have hcomp : compassEnergy (concBurst 25 700) = 25 :=
    (concBurst_feats 25 700 (by norm_num) (by norm_num)).2.1
  exact ⟨hcomp, (min_energy_boundary_amended (concBurst 25 700) 25 hcomp).1,
    (min_energy_boundary_amended (concBurst 25 700) 25 hcomp).2⟩

end Ironsight
